import Mathlib

/-!
Verification development for the `web-archive` crate.

The crate downloads a web page, discovers the image / stylesheet / script
resources it references, fetches them, and rewrites the page so those
resources are embedded inline.  The development below is a shallow
embedding of the four source files:

* `src/parsing.rs`   — resource discovery (`walk_dom`, `parse_resource_urls`)
  and the `ResourceUrl` / `Resource` / `ResourceMap` data model;
* `src/page_archive.rs` — the `PageArchive` aggregate and its
  `embed_resources` rewriter (three passes: images, stylesheets, scripts);
* `src/lib.rs`       — the async `archive` entry point and its fetch loop;
* `src/blocking.rs`  — the blocking `archive` entry point.

External collaborators are modelled as explicit function parameters:

* URL joining (the `url` crate's `Url::join`) is a parameter
  `join : Url → String → Option Url`; absolute URLs themselves are plain
  strings (`Url := String`);
* the HTML parser (`html5ever` / `kuchiki`) is a parameter
  `parseHtml : String → Node` producing a document-rooted `Node` tree, and
  the serializer is a parameter `serialize : Node → String`;
* the HTTP transport (`reqwest`) is a parameter
  `transport : Url → TransportResult`; body decoding is modelled as total.

DOM trees are a mutual inductive (`Node` / `NodeList`) so that every
function on them is structurally recursive and computes by kernel
reduction.  A node carries its children; an element additionally carries
its separate template-contents list (`rcdom`'s `template_contents` field),
which none of the crate's traversals descend into.
-/

abbrev Url := String

/-- The URL-joining collaborator: `join base candidate` mirrors
`url::Url::join` — `some` on success, `none` when the candidate cannot be
resolved against the base. -/
abbrev JoinFn := Url → String → Option Url

mutual

/-- A DOM node, as shared by `markup5ever_rcdom` (discovery) and `kuchiki`
(rewriting): an element with a tag name, an attribute list, a separate
template-contents subtree list and a child list; a text node; a comment;
or any other node kind (document, doctype, processing instruction), which
carries only children. -/
inductive Node : Type where
  | elem (name : String) (attrs : List (String × String))
      (templateContents : NodeList) (children : NodeList)
  | text (contents : String) (children : NodeList)
  | comment (contents : String) (children : NodeList)
  | other (children : NodeList)

/-- A list of DOM nodes (mutually inductive with `Node` so that recursion
over trees is structural). -/
inductive NodeList : Type where
  | nil
  | cons (head : Node) (tail : NodeList)

end

/-- Concatenation of node lists. -/
def NodeList.append : NodeList → NodeList → NodeList
  | .nil, ys => ys
  | .cons x xs, ys => .cons x (NodeList.append xs ys)

/-- Length of a node list. -/
def NodeList.length : NodeList → Nat
  | .nil => 0
  | .cons _ xs => 1 + NodeList.length xs

/-- First attribute value for a given attribute name (the map lookup
`attributes.get(name)` of `kuchiki`, whose keys are unique). -/
def getAttr (attrs : List (String × String)) (key : String) : Option String :=
  (attrs.find? (fun a => a.1 = key)).map (fun a => a.2)

/-- Replace the value of the first attribute with the given name, leaving
the rest untouched (the `*u = new_value` write through
`attributes.get_mut(name)` in `kuchiki`). -/
def setAttr : List (String × String) → String → String → List (String × String)
  | [], _, _ => []
  | a :: rest, key, v =>
      if a.1 = key then (key, v) :: rest else a :: setAttr rest key v

/-- Remove every attribute with the given name
(`attributes.remove(name)`; a no-op when the attribute is absent). -/
def removeAttr (attrs : List (String × String)) (key : String) :
    List (String × String) :=
  attrs.filter (fun a => ¬ a.1 = key)

/-- A discovered, typed resource locator — the `ResourceUrl` enum of
`src/parsing.rs`. -/
inductive ResourceUrl : Type where
  | Javascript (u : Url)
  | Css (u : Url)
  | Image (u : Url)
deriving DecidableEq

/-- Modelled from the spec: the locator's address carried by a typed
locator (§3 "TypedLocator ... each carrying one Locator"); the accessor
`ResourceUrl::url()` is used by both fetch loops but its declaration is
not among the given sources. -/
def ResourceUrl.url : ResourceUrl → Url
  | .Javascript u => u
  | .Css u => u
  | .Image u => u

/-- One attribute of the `link` branch of `walk_dom`, updating the pair
(`is_stylesheet`, last `href` value that joined successfully): an `href`
that joins overwrites the stored locator, a `rel` equal to exactly
`"stylesheet"` sets the flag, anything else changes nothing. -/
def linkStep (join : JoinFn) (urlBase : Url) (acc : Bool × Option Url)
    (a : String × String) : Bool × Option Url :=
  if a.1 = "href" then
    match join urlBase a.2 with
    | some u => (acc.1, some u)
    | none => acc
  else if a.1 = "rel" then
    if a.2 = "stylesheet" then (true, acc.2) else acc
  else acc

/-- The `link` branch of `walk_dom`: one pass over the attribute list,
starting from (`false`, no locator). -/
def linkFold (join : JoinFn) (urlBase : Url)
    (attrs : List (String × String)) : Bool × Option Url :=
  attrs.foldl (linkStep join urlBase) (false, none)

/-- Emission of the `link` branch of `walk_dom`: a single `Css` locator
when `rel="stylesheet"` was seen and some `href` resolved, else nothing. -/
def linkWalk (join : JoinFn) (urlBase : Url)
    (attrs : List (String × String)) : List ResourceUrl :=
  match linkFold join urlBase attrs with
  | (true, some u) => [ResourceUrl.Css u]
  | _ => []

/-- The locators a single node contributes in `walk_dom`, before its
children are visited: `img` and `script` elements emit one locator per
`src` attribute that resolves; `link` elements follow `linkWalk`; every
other node contributes nothing. -/
def nodeEmits (join : JoinFn) (urlBase : Url) : Node → List ResourceUrl
  | .elem name attrs _ _ =>
      if name = "img" then
        attrs.filterMap (fun a =>
          if a.1 = "src" then (join urlBase a.2).map ResourceUrl.Image
          else none)
      else if name = "script" then
        attrs.filterMap (fun a =>
          if a.1 = "src" then (join urlBase a.2).map ResourceUrl.Javascript
          else none)
      else if name = "link" then linkWalk join urlBase attrs
      else []
  | _ => []

/-- Children that `walk_dom` recurses into: text and element nodes only
(the `filter` over `node.children` in `src/parsing.rs`). -/
def keepChild : Node → Bool
  | .elem _ _ _ _ => true
  | .text _ _ => true
  | _ => false

mutual

/-- The recursive DOM walk of `src/parsing.rs`: the node's own emissions
followed by the emissions of its text/element children, in order.  The
`templateContents` list of an element is never visited. -/
def walkDom (join : JoinFn) (urlBase : Url) : Node → List ResourceUrl
  | .elem name attrs tc cs =>
      nodeEmits join urlBase (.elem name attrs tc cs) ++
        walkDomList join urlBase cs
  | .text _ cs => walkDomList join urlBase cs
  | .comment _ cs => walkDomList join urlBase cs
  | .other cs => walkDomList join urlBase cs

/-- `walkDom` over a child list: children failing the text/element filter
are skipped entirely. -/
def walkDomList (join : JoinFn) (urlBase : Url) : NodeList → List ResourceUrl
  | .nil => []
  | .cons c cs =>
      (if keepChild c then walkDom join urlBase c else []) ++
        walkDomList join urlBase cs

end

mutual

/-- Pre-order listing of the nodes `walk_dom` visits: the node itself,
then the visited nodes of its text/element children, in sibling order. -/
def preorder : Node → List Node
  | .elem name attrs tc cs => .elem name attrs tc cs :: preorderList cs
  | .text s cs => .text s cs :: preorderList cs
  | .comment s cs => .comment s cs :: preorderList cs
  | .other cs => .other cs :: preorderList cs

/-- Pre-order listing over a child list, with the text/element filter. -/
def preorderList : NodeList → List Node
  | .nil => []
  | .cons c cs =>
      (if keepChild c then preorder c else []) ++ preorderList cs

end

/-- The base64 alphabet used by data URIs. -/
def b64chars : List Char :=
  ['A', 'B', 'C', 'D', 'E', 'F', 'G', 'H', 'I', 'J', 'K', 'L', 'M',
   'N', 'O', 'P', 'Q', 'R', 'S', 'T', 'U', 'V', 'W', 'X', 'Y', 'Z',
   'a', 'b', 'c', 'd', 'e', 'f', 'g', 'h', 'i', 'j', 'k', 'l', 'm',
   'n', 'o', 'p', 'q', 'r', 's', 't', 'u', 'v', 'w', 'x', 'y', 'z',
   '0', '1', '2', '3', '4', '5', '6', '7', '8', '9', '+', '/']

/-- Digit `n` of the base64 alphabet. -/
def b64char (n : Nat) : Char := b64chars.getD n 'A'

/-- Value of a base64 digit, `none` for characters outside the alphabet. -/
def b64val (c : Char) : Option Nat := b64chars.findIdx? (fun x => x = c)

/-- Standard base64 encoding of a byte sequence (bytes as naturals below
256), three bytes to four digits, with `=` padding. -/
def b64encode : List Nat → List Char
  | [] => []
  | [a] => [b64char (a / 4), b64char (a % 4 * 16), '=', '=']
  | [a, b] =>
      [b64char (a / 4), b64char (a % 4 * 16 + b / 16), b64char (b % 16 * 4),
       '=']
  | a :: b :: c :: rest =>
      b64char (a / 4) :: b64char (a % 4 * 16 + b / 16) ::
        b64char (b % 16 * 4 + c / 64) :: b64char (c % 64) :: b64encode rest

/-- Standard base64 decoding, `none` on malformed input. -/
def b64decode : List Char → Option (List Nat)
  | [] => some []
  | w :: x :: y :: z :: rest =>
      match b64val w, b64val x with
      | some vw, some vx =>
          if y = '=' then
            if z = '=' ∧ rest = [] then some [vw * 4 + vx / 16] else none
          else
            match b64val y with
            | some vy =>
                if z = '=' then
                  if rest = [] then
                    some [vw * 4 + vx / 16, vx % 16 * 16 + vy / 4]
                  else none
                else
                  match b64val z with
                  | some vz =>
                      (b64decode rest).map
                        (fun t =>
                          (vw * 4 + vx / 16) :: (vx % 16 * 16 + vy / 4) ::
                            (vy % 4 * 64 + vz) :: t)
                  | none => none
            | none => none
      | _, _ => none
  | _ => none

/-- The image payload stored by the async fetch loop of `src/lib.rs` and
consumed by `embed_resources`: raw bytes plus a MIME type string. -/
structure ImageResource where
  data : List Nat
  mimetype : String
deriving DecidableEq

/-- Modelled from the spec: `ImageResource::to_data_uri`, called by the
image pass of `embed_resources`, is not among the given sources; per §4.4
the attribute value becomes "a data-URI encoding (base64) of the stored
bytes, tagged with the stored MIME type", and the crate's own test
expects output of the shape `data:image/png;base64,<base64 bytes>`. -/
def ImageResource.to_data_uri (img : ImageResource) : String :=
  "data:" ++ img.mimetype ++ ";base64," ++ String.mk (b64encode img.data)

/-- The `Resource` enum as constructed by the async fetch loop of
`src/lib.rs` and consumed by `embed_resources` and the tests of
`src/page_archive.rs`: an image carries an `ImageResource`.
(`src/parsing.rs` as given still declares the older shape whose image
variant carries bare bytes; that shape, used by `src/blocking.rs`, is
kept below as `BlockingResource` — §9 of the spec records this
inconsistency between the two entry points.) -/
inductive Resource : Type where
  | Javascript (text : String)
  | Css (text : String)
  | Image (img : ImageResource)
deriving DecidableEq

/-- The `Resource` enum exactly as declared in `src/parsing.rs` and
constructed by the blocking fetch loop of `src/blocking.rs`: the image
variant carries only the fetched bytes. -/
inductive BlockingResource : Type where
  | Javascript (text : String)
  | Css (text : String)
  | Image (data : List Nat)
deriving DecidableEq

/-- Lookup in a store keyed by locator (`HashMap::get`). -/
def mapGet {α : Type} (m : List (Url × α)) (k : Url) : Option α :=
  (m.find? (fun p => p.1 = k)).map (fun p => p.2)

/-- Insertion into a store keyed by locator (`HashMap::insert`):
overwrites the entry for an existing key, appends a new entry otherwise. -/
def mapInsert {α : Type} : List (Url × α) → Url → α → List (Url × α)
  | [], k, v => [(k, v)]
  | p :: rest, k, v =>
      if p.1 = k then (k, v) :: rest else p :: mapInsert rest k v

/-- The `PageArchive` aggregate of `src/page_archive.rs`: base URL,
original page text, and the resource store. -/
structure PageArchive where
  url : Url
  content : String
  resource_map : List (Url × Resource)

/-- The image pass of `embed_resources`, restricted to one attribute
list: if a `src` attribute is present, its value joins against the base,
and the store holds an `Image` for the joined locator, the `src` value is
replaced in place by the data URI; otherwise the attributes are left
untouched. -/
def imgNewAttrs (join : JoinFn) (base : Url) (store : List (Url × Resource))
    (attrs : List (String × String)) : List (String × String) :=
  match getAttr attrs "src" with
  | none => attrs
  | some v =>
      match join base v with
      | none => attrs
      | some u =>
          match mapGet store u with
          | some (Resource.Image img) => setAttr attrs "src" img.to_data_uri
          | _ => attrs

mutual

/-- The image pass of `embed_resources` over a tree: every element named
`img` has its attributes rewritten by `imgNewAttrs`; nothing else
changes.  Template contents are not traversed (the `select` iterator
walks child links only). -/
def imgReplace (join : JoinFn) (base : Url) (store : List (Url × Resource)) :
    Node → Node
  | .elem name attrs tc cs =>
      .elem name
        (if name = "img" then imgNewAttrs join base store attrs else attrs)
        tc (imgReplaceList join base store cs)
  | .text s cs => .text s (imgReplaceList join base store cs)
  | .comment s cs => .comment s (imgReplaceList join base store cs)
  | .other cs => .other (imgReplaceList join base store cs)

/-- `imgReplace` over a child list. -/
def imgReplaceList (join : JoinFn) (base : Url)
    (store : List (Url × Resource)) : NodeList → NodeList
  | .nil => .nil
  | .cons c cs =>
      .cons (imgReplace join base store c) (imgReplaceList join base store cs)

end

/-- The stylesheet test of the CSS pass, on a tag name and attribute
list: a `link` whose `rel` attribute equals `"stylesheet"`, whose `href`
joins against the base, and whose joined locator has a `Css` entry in the
store, yields the stored CSS text. -/
def linkCssData (join : JoinFn) (base : Url) (store : List (Url × Resource))
    (name : String) (attrs : List (String × String)) : Option String :=
  if name = "link" then
    if getAttr attrs "rel" = some "stylesheet" then
      match getAttr attrs "href" with
      | some v =>
          match join base v with
          | some u =>
              match mapGet store u with
              | some (Resource.Css css) => some css
              | _ => none
          | none => none
      | none => none
    else none
  else none

/-- `linkCssData` lifted to a node. -/
def nodeCssData (join : JoinFn) (base : Url) (store : List (Url × Resource)) :
    Node → Option String
  | .elem name attrs _ _ => linkCssData join base store name attrs
  | _ => none

/-- The freshly created `<style>` element of the CSS pass: no attributes,
a single text child holding the stored CSS text. -/
def styleNode (css : String) : Node :=
  .elem "style" [] .nil (.cons (.text css .nil) .nil)

/-- Children surviving the CSS pass at one parent: every child that is a
replaced stylesheet `link` is detached. -/
def cssKept (join : JoinFn) (base : Url) (store : List (Url × Resource)) :
    NodeList → NodeList
  | .nil => .nil
  | .cons c cs =>
      if (nodeCssData join base store c).isSome then cssKept join base store cs
      else .cons c (cssKept join base store cs)

/-- The `<style>` elements appended at one parent by the CSS pass, one
per replaced `link` child, in document order. -/
def cssStyles (join : JoinFn) (base : Url) (store : List (Url × Resource)) :
    NodeList → NodeList
  | .nil => .nil
  | .cons c cs =>
      match nodeCssData join base store c with
      | some css => .cons (styleNode css) (cssStyles join base store cs)
      | none => cssStyles join base store cs

/-- One parent's child list after the CSS pass: surviving children in
their original order, then the new `<style>` elements appended at the
end (each `<style>` is appended as the last child of the `link`'s parent
before the `link` is detached). -/
def cssRebuild (join : JoinFn) (base : Url) (store : List (Url × Resource))
    (cs : NodeList) : NodeList :=
  NodeList.append (cssKept join base store cs) (cssStyles join base store cs)

mutual

/-- The CSS pass of `embed_resources` over a tree: at every node, after
the pass has processed the children's own subtrees, each child that is a
replaced stylesheet `link` is detached and a `<style>` element holding
its stored CSS text is appended as the last child.  The root node itself
is never detached (a `link` with no parent is skipped). -/
def cssReplace (join : JoinFn) (base : Url) (store : List (Url × Resource)) :
    Node → Node
  | .elem name attrs tc cs =>
      .elem name attrs tc
        (cssRebuild join base store (cssReplaceList join base store cs))
  | .text s cs =>
      .text s (cssRebuild join base store (cssReplaceList join base store cs))
  | .comment s cs =>
      .comment s
        (cssRebuild join base store (cssReplaceList join base store cs))
  | .other cs =>
      .other (cssRebuild join base store (cssReplaceList join base store cs))

/-- `cssReplace` over a child list (subtree processing only; detachment
and appending happen at the parent via `cssRebuild`). -/
def cssReplaceList (join : JoinFn) (base : Url)
    (store : List (Url × Resource)) : NodeList → NodeList
  | .nil => .nil
  | .cons c cs =>
      .cons (cssReplace join base store c) (cssReplaceList join base store cs)

end

/-- The text child appended to a `script` element by the script pass:
present exactly when the `src` attribute joins and the store holds a
`Javascript` entry for the joined locator. -/
def scriptExtra (join : JoinFn) (base : Url) (store : List (Url × Resource))
    (attrs : List (String × String)) : NodeList :=
  match getAttr attrs "src" with
  | some v =>
      match join base v with
      | some u =>
          match mapGet store u with
          | some (Resource.Javascript s) => .cons (.text s .nil) .nil
          | _ => .nil
      | none => .nil
  | none => .nil

mutual

/-- The script pass of `embed_resources` over a tree: every element named
`script` loses its `src` attribute unconditionally — the removal sits
outside the store-lookup conditionals in the source — and gains a text
child with the stored script body when the lookup succeeds (existing
children stay in place before it). -/
def scriptReplace (join : JoinFn) (base : Url)
    (store : List (Url × Resource)) : Node → Node
  | .elem name attrs tc cs =>
      if name = "script" then
        .elem name (removeAttr attrs "src") tc
          (NodeList.append (scriptReplaceList join base store cs)
            (scriptExtra join base store attrs))
      else .elem name attrs tc (scriptReplaceList join base store cs)
  | .text s cs => .text s (scriptReplaceList join base store cs)
  | .comment s cs => .comment s (scriptReplaceList join base store cs)
  | .other cs => .other (scriptReplaceList join base store cs)

/-- `scriptReplace` over a child list. -/
def scriptReplaceList (join : JoinFn) (base : Url)
    (store : List (Url × Resource)) : NodeList → NodeList
  | .nil => .nil
  | .cons c cs =>
      .cons (scriptReplace join base store c)
        (scriptReplaceList join base store cs)

end

/-- The three passes of `embed_resources` in source order: images, then
stylesheets, then scripts, over the freshly parsed tree. -/
def embedTree (join : JoinFn) (base : Url) (store : List (Url × Resource))
    (t : Node) : Node :=
  scriptReplace join base store
    (cssReplace join base store (imgReplace join base store t))

/-- Modelled from the spec: the crate's error type (`src/error.rs` is not
among the given sources); taxonomy per §7 — `ParseError` for input
addresses that fail to parse, `TransportError` for transport-level
failures propagated to the caller.  No render-error variant is needed:
`embed_resources` never constructs one. -/
inductive Err : Type where
  | ParseError (msg : String)
  | TransportError (msg : String)
deriving DecidableEq

/-- `PageArchive::embed_resources` of `src/page_archive.rs`: re-parse the
original text into a second, independent tree, run the three passes, and
serialize.  The function's `Result` type admits an error, but every path
of the source returns `Ok`. -/
def PageArchive.embed_resources (join : JoinFn) (parseHtml : String → Node)
    (serialize : Node → String) (pa : PageArchive) : Except Err String :=
  .ok (serialize
    (embedTree join pa.url pa.resource_map (parseHtml pa.content)))

/-- A transport response: HTTP status code, body as bytes, body as text
(the narrow `Response` contract of §6; body decoding is modelled as
total). -/
structure Response where
  status : Nat
  bytesBody : List Nat
  textBody : String

/-- Outcome of one transport call: a response, or a transport-level
failure (connection error, timeout), which the fetch code propagates
with `?`. -/
inductive TransportResult : Type where
  | ok (resp : Response)
  | err (msg : String)

/-- Whether a transport call returned a response at all. -/
def TransportResult.isOk : TransportResult → Bool
  | .ok _ => true
  | .err _ => false

/-- Classification of a successful resource response by the async fetch
loop of `src/lib.rs`: images store their bytes in an `ImageResource`
whose `mimetype` is always the empty string (`String::new()`),
stylesheets and scripts store the decoded text. -/
def asyncResourceOf (ru : ResourceUrl) (resp : Response) : Resource :=
  match ru with
  | .Image _ => .Image ⟨resp.bytesBody, ""⟩
  | .Css _ => .Css resp.textBody
  | .Javascript _ => .Javascript resp.textBody

/-- The async fetch loop of `src/lib.rs` over the discovered locators,
threading the store being built: a transport-level failure aborts the
whole operation; a response whose status is not exactly 200 is skipped
(nothing recorded) and processing continues; a 200 response is
classified and inserted.  The second component is the trace of resource
requests issued, in order. -/
def fetchLoop (transport : Url → TransportResult) :
    List ResourceUrl → List (Url × Resource) →
      Except Err (List (Url × Resource)) × List Url
  | [], m => (.ok m, [])
  | ru :: rest, m =>
      match transport ru.url with
      | .err msg => (.error (.TransportError msg), [ru.url])
      | .ok resp =>
          if resp.status ≠ 200 then
            let r := fetchLoop transport rest m
            (r.1, ru.url :: r.2)
          else
            let r :=
              fetchLoop transport rest
                (mapInsert m ru.url (asyncResourceOf ru resp))
            (r.1, ru.url :: r.2)

/-- The async `archive` entry point of `src/lib.rs`: parse the input
address (failure is a `ParseError`, before any network activity), fetch
the page, discover its resource locators, fetch them in discovery order,
and assemble the `PageArchive`.  The second component is the trace of
every URL requested from the transport, in order. -/
def archive (parseUrl : String → Except String Url) (join : JoinFn)
    (parseHtml : String → Node) (transport : Url → TransportResult)
    (input : String) : Except Err PageArchive × List Url :=
  match parseUrl input with
  | .error e => (.error (.ParseError e), [])
  | .ok url =>
      match transport url with
      | .err msg => (.error (.TransportError msg), [url])
      | .ok resp =>
          let content := resp.textBody
          let rus := walkDom join url (parseHtml content)
          let r := fetchLoop transport rus []
          (r.1.map (fun m => PageArchive.mk url content m), url :: r.2)

/-- Classification of a successful resource response by the blocking
fetch loop of `src/blocking.rs`: images store bare bytes
(`Resource::Image(response.bytes()?)` against the `src/parsing.rs`
enum) — no MIME type is tracked. -/
def blockingResourceOf (ru : ResourceUrl) (resp : Response) :
    BlockingResource :=
  match ru with
  | .Image _ => .Image resp.bytesBody
  | .Css _ => .Css resp.textBody
  | .Javascript _ => .Javascript resp.textBody

/-- The archive value built by `src/blocking.rs`: it is constructed as
`PageArchive { content, resource_map }` — no base URL field — and its
store holds `BlockingResource` payloads. -/
structure BlockingPageArchive where
  content : String
  resource_map : List (Url × BlockingResource)

/-- The blocking fetch loop of `src/blocking.rs`; identical control flow
to the async loop, differing only in how an image payload is stored. -/
def blockingFetchLoop (transport : Url → TransportResult) :
    List ResourceUrl → List (Url × BlockingResource) →
      Except Err (List (Url × BlockingResource)) × List Url
  | [], m => (.ok m, [])
  | ru :: rest, m =>
      match transport ru.url with
      | .err msg => (.error (.TransportError msg), [ru.url])
      | .ok resp =>
          if resp.status ≠ 200 then
            let r := blockingFetchLoop transport rest m
            (r.1, ru.url :: r.2)
          else
            let r :=
              blockingFetchLoop transport rest
                (mapInsert m ru.url (blockingResourceOf ru resp))
            (r.1, ru.url :: r.2)

/-- The blocking `archive` entry point of `src/blocking.rs`: same staging
as the async one (parse address, fetch page, discover, fetch resources
in order), with the blocking store shape. -/
def blockingArchive (parseUrl : String → Except String Url) (join : JoinFn)
    (parseHtml : String → Node) (transport : Url → TransportResult)
    (input : String) : Except Err BlockingPageArchive × List Url :=
  match parseUrl input with
  | .error e => (.error (.ParseError e), [])
  | .ok url =>
      match transport url with
      | .err msg => (.error (.TransportError msg), [url])
      | .ok resp =>
          let content := resp.textBody
          let rus := walkDom join url (parseHtml content)
          let r := blockingFetchLoop transport rus []
          (r.1.map (fun m => BlockingPageArchive.mk content m), url :: r.2)

/-- Forget the image MIME type of an async store payload, producing the
blocking payload shape. -/
def forgetMime : Resource → BlockingResource
  | .Javascript t => .Javascript t
  | .Css t => .Css t
  | .Image img => .Image img.data

/-- Forget the base URL and the image MIME types of an async
`PageArchive`, producing the blocking archive shape. -/
def forgetArchive (pa : PageArchive) : BlockingPageArchive :=
  BlockingPageArchive.mk pa.content
    (pa.resource_map.map (fun p => (p.1, forgetMime p.2)))

/-- A common view of the two stores' payloads, used to state that the
entry points record identical payloads including the image MIME type: an
image payload exposes its MIME type when one is stored at all. -/
inductive ResourceView : Type where
  | javascript (text : String)
  | css (text : String)
  | image (data : List Nat) (mimetype : Option String)
deriving DecidableEq

/-- View of an async store payload: images carry `some` MIME type (the
async loop stores one, always empty). -/
def Resource.view : Resource → ResourceView
  | .Javascript t => .javascript t
  | .Css t => .css t
  | .Image img => .image img.data (some img.mimetype)

/-- View of a blocking store payload: images carry no MIME type. -/
def BlockingResource.view : BlockingResource → ResourceView
  | .Javascript t => .javascript t
  | .Css t => .css t
  | .Image d => .image d none

/-- View of a whole store. -/
def storeView {α : Type} (viewFn : α → ResourceView)
    (m : List (Url × α)) : List (Url × ResourceView) :=
  m.map (fun p => (p.1, viewFn p.2))

mutual

/-- Number of elements with the given tag name in a tree (template
contents, which the serializer-facing tree walks of the rewriter never
visit, are not counted). -/
def countTag (tag : String) : Node → Nat
  | .elem name _ _ cs =>
      (if name = tag then 1 else 0) + countTagList tag cs
  | .text _ cs => countTagList tag cs
  | .comment _ cs => countTagList tag cs
  | .other cs => countTagList tag cs

/-- `countTag` over a child list. -/
def countTagList (tag : String) : NodeList → Nat
  | .nil => 0
  | .cons c cs => countTag tag c + countTagList tag cs

end

/-- Whether a node is an element named `link`. -/
def isLink : Node → Bool
  | .elem name _ _ _ => name = "link"
  | _ => false

mutual

/-- The elements named `style` of a tree, in document order (each listed
with its full subtree). -/
def stylesOf : Node → List Node
  | .elem name attrs tc cs =>
      (if name = "style" then [Node.elem name attrs tc cs] else []) ++
        stylesList cs
  | .text _ cs => stylesList cs
  | .comment _ cs => stylesList cs
  | .other cs => stylesList cs

/-- `stylesOf` over a child list. -/
def stylesList : NodeList → List Node
  | .nil => []
  | .cons c cs => stylesOf c ++ stylesList cs

end

mutual

/-- Every `link` element of the tree passes the CSS-pass test with the
given stored CSS text (`nodeCssData` yields exactly `some css`). -/
def allLinksCss (join : JoinFn) (base : Url) (store : List (Url × Resource))
    (css : String) : Node → Bool
  | .elem name attrs tc cs =>
      (if name = "link" then
        nodeCssData join base store (.elem name attrs tc cs) == some css
      else true) && allLinksCssList join base store css cs
  | .text _ cs => allLinksCssList join base store css cs
  | .comment _ cs => allLinksCssList join base store css cs
  | .other cs => allLinksCssList join base store css cs

/-- `allLinksCss` over a child list. -/
def allLinksCssList (join : JoinFn) (base : Url)
    (store : List (Url × Resource)) (css : String) : NodeList → Bool
  | .nil => true
  | .cons c cs =>
      allLinksCss join base store css c &&
        allLinksCssList join base store css cs

end

mutual

/-- Erase every template-contents list in a tree, leaving everything
else in place. -/
def eraseTemplates : Node → Node
  | .elem name attrs _ cs => .elem name attrs .nil (eraseTemplatesList cs)
  | .text s cs => .text s (eraseTemplatesList cs)
  | .comment s cs => .comment s (eraseTemplatesList cs)
  | .other cs => .other (eraseTemplatesList cs)

/-- `eraseTemplates` over a child list. -/
def eraseTemplatesList : NodeList → NodeList
  | .nil => .nil
  | .cons c cs => .cons (eraseTemplates c) (eraseTemplatesList cs)

end

mutual

/-- Drop every child that is neither a text node nor an element,
recursively (the children `walk_dom`'s filter skips). -/
def dropJunk : Node → Node
  | .elem name attrs tc cs => .elem name attrs tc (dropJunkList cs)
  | .text s cs => .text s (dropJunkList cs)
  | .comment s cs => .comment s (dropJunkList cs)
  | .other cs => .other (dropJunkList cs)

/-- `dropJunk` over a child list: comments and other non-text,
non-element children are removed. -/
def dropJunkList : NodeList → NodeList
  | .nil => .nil
  | .cons c cs =>
      if keepChild c then .cons (dropJunk c) (dropJunkList cs)
      else dropJunkList cs

end

/-- Every index below 64 encodes to a digit that decodes back to itself. -/
theorem b64val_b64char : ∀ n < 64, b64val (b64char n) = some n := by decide

/-- Base64 digits are never the padding character. -/
theorem b64char_ne_pad : ∀ n < 64, ¬ b64char n = '=' := by decide

/-- Decoding inverts encoding on any sequence of bytes. -/
theorem b64_roundtrip :
    ∀ (l : List Nat), (∀ x ∈ l, x < 256) →
      b64decode (b64encode l) = some l
  | [] => fun _ => rfl
  | [a] => fun h => by
      have ha : a < 256 := h a (by simp)
      have h1 : a / 4 < 64 := by omega
      have h2 : a % 4 * 16 < 64 := by omega
      simp only [b64encode, b64decode]
      simp [b64val_b64char _ h1, b64val_b64char _ h2]
      all_goals omega
  | [a, b] => fun h => by
      have ha : a < 256 := h a (by simp)
      have hb : b < 256 := h b (by simp)
      have h1 : a / 4 < 64 := by omega
      have h2 : a % 4 * 16 + b / 16 < 64 := by omega
      have h3 : b % 16 * 4 < 64 := by omega
      simp only [b64encode, b64decode]
      simp [b64val_b64char _ h1, b64val_b64char _ h2, b64val_b64char _ h3,
        b64char_ne_pad _ h3]
      all_goals omega
  | a :: b :: c :: rest => fun h => by
      have ha : a < 256 := h a (by simp)
      have hb : b < 256 := h b (by simp)
      have hc : c < 256 := h c (by simp)
      have h1 : a / 4 < 64 := by omega
      have h2 : a % 4 * 16 + b / 16 < 64 := by omega
      have h3 : b % 16 * 4 + c / 64 < 64 := by omega
      have h4 : c % 64 < 64 := by omega
      have ih := b64_roundtrip rest (fun x hx => h x (by simp [hx]))
      simp only [b64encode, b64decode]
      simp [b64val_b64char _ h1, b64val_b64char _ h2, b64val_b64char _ h3,
        b64val_b64char _ h4, b64char_ne_pad _ h3, b64char_ne_pad _ h4, ih]
      all_goals omega

/-- The stylesheet flag after the `link` fold is set exactly when it was
already set or some attribute is `rel="stylesheet"`. -/
theorem linkFold_fst_iff (join : JoinFn) (urlBase : Url) :
    ∀ (attrs : List (String × String)) (acc : Bool × Option Url),
      ((attrs.foldl (linkStep join urlBase) acc).1 = true ↔
        acc.1 = true ∨ ∃ p ∈ attrs, p.1 = "rel" ∧ p.2 = "stylesheet")
  | [], acc => by simp
  | a :: rest, acc => by
      have ih :=
        linkFold_fst_iff join urlBase rest (linkStep join urlBase acc a)
      simp only [List.foldl_cons, List.mem_cons, ih]
      unfold linkStep
      by_cases h1 : a.1 = "href"
      · have hne : ¬ (a.1 = "rel") := by rw [h1]; decide
        cases hj : join urlBase a.2 <;> simp [h1, hj, hne] <;> tauto
      · by_cases h2 : a.1 = "rel"
        · by_cases h3 : a.2 = "stylesheet" <;> simp [h1, h2, h3] <;> tauto
        · simp [h1, h2] <;> tauto

/-- The locator after the `link` fold is present exactly when one was
already present or some `href` attribute joins successfully. -/
theorem linkFold_snd_iff (join : JoinFn) (urlBase : Url) :
    ∀ (attrs : List (String × String)) (acc : Bool × Option Url),
      ((attrs.foldl (linkStep join urlBase) acc).2.isSome = true ↔
        acc.2.isSome = true ∨
          ∃ p ∈ attrs, p.1 = "href" ∧ (join urlBase p.2).isSome = true)
  | [], acc => by simp
  | a :: rest, acc => by
      have ih :=
        linkFold_snd_iff join urlBase rest (linkStep join urlBase acc a)
      simp only [List.foldl_cons, List.mem_cons, ih]
      unfold linkStep
      by_cases h1 : a.1 = "href"
      · cases hj : join urlBase a.2 <;> simp [h1, hj] <;> tauto
      · by_cases h2 : a.1 = "rel"
        · by_cases h3 : a.2 = "stylesheet" <;> simp [h1, h2, h3] <;> tauto
        · simp [h1, h2] <;> tauto

/-- `linkWalk` emits something exactly when the fold ends with the flag
set and a locator present. -/
theorem linkWalk_ne_nil_iff (join : JoinFn) (urlBase : Url)
    (attrs : List (String × String)) :
    linkWalk join urlBase attrs ≠ [] ↔
      ((linkFold join urlBase attrs).1 = true ∧
        (linkFold join urlBase attrs).2.isSome = true) := by
  unfold linkWalk
  rcases h : linkFold join urlBase attrs with ⟨fst, snd⟩
  cases fst <;> cases snd <;> simp

/-- `linkWalk` emits nothing or a single stylesheet locator. -/
theorem linkWalk_shape (join : JoinFn) (urlBase : Url)
    (attrs : List (String × String)) :
    linkWalk join urlBase attrs = [] ∨
      ∃ u, linkWalk join urlBase attrs = [ResourceUrl.Css u] := by
  unfold linkWalk
  rcases linkFold join urlBase attrs with ⟨fst, snd⟩
  cases fst <;> cases snd <;> simp

mutual

/-- The walk's emissions are the pre-order node listing's emissions,
flattened in order. -/
theorem walkDom_eq_preorder (join : JoinFn) (urlBase : Url) : ∀ (t : Node),
    walkDom join urlBase t =
      ((preorder t).map (nodeEmits join urlBase)).flatten
  | .elem n a tc cs => by
      simp [walkDom, preorder, walkDomList_eq_preorder join urlBase cs]
  | .text s cs => by
      simp [walkDom, preorder, nodeEmits,
        walkDomList_eq_preorder join urlBase cs]
  | .comment s cs => by
      simp [walkDom, preorder, nodeEmits,
        walkDomList_eq_preorder join urlBase cs]
  | .other cs => by
      simp [walkDom, preorder, nodeEmits,
        walkDomList_eq_preorder join urlBase cs]

/-- List version of `walkDom_eq_preorder`. -/
theorem walkDomList_eq_preorder (join : JoinFn) (urlBase : Url) :
    ∀ (cs : NodeList),
      walkDomList join urlBase cs =
        ((preorderList cs).map (nodeEmits join urlBase)).flatten
  | .nil => by simp [walkDomList, preorderList]
  | .cons c cs => by
      by_cases h : keepChild c = true <;>
        simp [walkDomList, preorderList, h,
          walkDom_eq_preorder join urlBase c,
          walkDomList_eq_preorder join urlBase cs]

end

/-- A resource response is requested for every discovered locator, in
order, as long as no transport-level failure occurs. -/
theorem fetchLoop_trace (transport : Url → TransportResult) :
    ∀ (rus : List ResourceUrl) (m : List (Url × Resource)),
      (∀ ru ∈ rus, (transport ru.url).isOk = true) →
        (fetchLoop transport rus m).2 = rus.map ResourceUrl.url
  | [], _ => fun _ => rfl
  | ru :: rest, m => fun h => by
      have hok := h ru (by simp)
      cases htr : transport ru.url with
      | err msg => rw [htr] at hok; simp [TransportResult.isOk] at hok
      | ok resp =>
          have hrest : ∀ r ∈ rest, (transport r.url).isOk = true :=
            fun r hr => h r (by simp [hr])
          have ih1 := fetchLoop_trace transport rest m hrest
          have ih2 := fetchLoop_trace transport rest
            (mapInsert m ru.url (asyncResourceOf ru resp)) hrest
          by_cases hs : resp.status = 200 <;>
            simp [fetchLoop, htr, hs, ih1, ih2]

/-- Whether a node survives the walk's child filter is not changed by
erasing template contents. -/
theorem keepChild_eraseTemplates : ∀ (c : Node),
    keepChild (eraseTemplates c) = keepChild c
  | .elem _ _ _ _ => rfl
  | .text _ _ => rfl
  | .comment _ _ => rfl
  | .other _ => rfl

/-- Whether a node survives the walk's child filter is not changed by
dropping non-text, non-element children. -/
theorem keepChild_dropJunk : ∀ (c : Node),
    keepChild (dropJunk c) = keepChild c
  | .elem _ _ _ _ => rfl
  | .text _ _ => rfl
  | .comment _ _ => rfl
  | .other _ => rfl

mutual

/-- The walk never reads template contents: erasing them all changes no
emission. -/
theorem walkDom_eraseTemplates (join : JoinFn) (urlBase : Url) :
    ∀ (t : Node), walkDom join urlBase (eraseTemplates t) =
      walkDom join urlBase t
  | .elem n a tc cs => by
      simp [walkDom, eraseTemplates, nodeEmits,
        walkDomList_eraseTemplates join urlBase cs]
  | .text s cs => by
      simp [walkDom, eraseTemplates,
        walkDomList_eraseTemplates join urlBase cs]
  | .comment s cs => by
      simp [walkDom, eraseTemplates,
        walkDomList_eraseTemplates join urlBase cs]
  | .other cs => by
      simp [walkDom, eraseTemplates,
        walkDomList_eraseTemplates join urlBase cs]

/-- List version of `walkDom_eraseTemplates`. -/
theorem walkDomList_eraseTemplates (join : JoinFn) (urlBase : Url) :
    ∀ (cs : NodeList),
      walkDomList join urlBase (eraseTemplatesList cs) =
        walkDomList join urlBase cs
  | .nil => rfl
  | .cons c cs => by
      simp [walkDomList, eraseTemplatesList, keepChild_eraseTemplates c,
        walkDom_eraseTemplates join urlBase c,
        walkDomList_eraseTemplates join urlBase cs]

end

mutual

/-- The walk never descends into children that are neither text nor
elements: dropping them all changes no emission. -/
theorem walkDom_dropJunk (join : JoinFn) (urlBase : Url) :
    ∀ (t : Node), walkDom join urlBase (dropJunk t) = walkDom join urlBase t
  | .elem n a tc cs => by
      simp [walkDom, dropJunk, nodeEmits,
        walkDomList_dropJunk join urlBase cs]
  | .text s cs => by
      simp [walkDom, dropJunk, walkDomList_dropJunk join urlBase cs]
  | .comment s cs => by
      simp [walkDom, dropJunk, walkDomList_dropJunk join urlBase cs]
  | .other cs => by
      simp [walkDom, dropJunk, walkDomList_dropJunk join urlBase cs]

/-- List version of `walkDom_dropJunk`. -/
theorem walkDomList_dropJunk (join : JoinFn) (urlBase : Url) :
    ∀ (cs : NodeList),
      walkDomList join urlBase (dropJunkList cs) =
        walkDomList join urlBase cs
  | .nil => rfl
  | .cons c cs => by
      by_cases h : keepChild c = true
      · simp [walkDomList, dropJunkList, h, keepChild_dropJunk c,
          walkDom_dropJunk join urlBase c,
          walkDomList_dropJunk join urlBase cs]
      · simp only [dropJunkList]
        rw [if_neg h]
        simp [walkDomList, h, walkDomList_dropJunk join urlBase cs]

end

/-- Concrete joining function used by witnesses: fails on the empty
candidate, otherwise appends the candidate to the base with a slash. -/
def wJoin : JoinFn := fun b s => if s = "" then none else some (b ++ "/" ++ s)

/-- Concrete address parser used by witnesses. -/
def wParseUrl : String → Except String Url := fun s =>
  if s = "bad~url" then .error "relative URL without a base" else .ok s

/-- Concrete page response used by witnesses. -/
def wResp : Response := Response.mk 200 [5] "page"

/-- Concrete transport used by witnesses: every request gets a 200
response with a small byte body. -/
def wTransport : Url → TransportResult := fun _ => TransportResult.ok wResp

/-- Concrete document tree used by witnesses: an image, a stylesheet
link, and a script, in that order. -/
def wDoc : Node :=
  .other (.cons
    (.elem "html" [] .nil
      (.cons (.elem "img" [("src", "a.png")] .nil .nil)
        (.cons
          (.elem "link" [("rel", "stylesheet"), ("href", "b.css")] .nil .nil)
          (.cons (.elem "script" [("src", "c.js")] .nil .nil) .nil))))
    .nil)

/-- Concrete parser used by witnesses: every text parses to `wDoc`. -/
def wParseHtml : String → Node := fun _ => wDoc

/-- C4: discovery emits typed locators in document order — the walk's
output is the flattening, in pre-order, of each visited node's own
emissions (so a node's emissions precede its descendants', and earlier
siblings' precede later siblings') — and the fetch stage then issues one
request per discovered locator in exactly that order (after the page
request), as long as no transport-level failure aborts the loop. -/
theorem claim_C4_discovery_order :
    (∀ (join : JoinFn) (urlBase : Url) (t : Node),
      walkDom join urlBase t =
        ((preorder t).map (nodeEmits join urlBase)).flatten) ∧
    (∀ (parseUrl : String → Except String Url) (join : JoinFn)
        (parseHtml : String → Node) (transport : Url → TransportResult)
        (input : String) (url : Url) (resp : Response),
      parseUrl input = .ok url →
      transport url = .ok resp →
      (∀ ru ∈ walkDom join url (parseHtml resp.textBody),
        (transport ru.url).isOk = true) →
      (archive parseUrl join parseHtml transport input).2 =
        url ::
          (walkDom join url (parseHtml resp.textBody)).map
            ResourceUrl.url) := by
  constructor
  · exact fun join urlBase t => walkDom_eq_preorder join urlBase t
  · intro parseUrl join parseHtml transport input url resp hp ht hok
    simp [archive, hp, ht, fetchLoop_trace transport _ [] hok]

/-- Witness for C4 at a concrete document with an image, a stylesheet
link, and a script, in that order. -/
theorem claim_C4_witness :
    (wParseUrl "http://x" = Except.ok "http://x") ∧
    (wTransport "http://x" = TransportResult.ok wResp) ∧
    (∀ ru ∈ walkDom wJoin "http://x" (wParseHtml wResp.textBody),
      (wTransport ru.url).isOk = true) ∧
    (archive wParseUrl wJoin wParseHtml wTransport "http://x").2 =
      "http://x" ::
        (walkDom wJoin "http://x" (wParseHtml wResp.textBody)).map
          ResourceUrl.url :=
  ⟨rfl, rfl, by decide,
    claim_C4_discovery_order.2 wParseUrl wJoin wParseHtml wTransport
      "http://x" "http://x" wResp rfl rfl (by decide)⟩

/-- C5: during discovery a `link` element emits a stylesheet locator if
and only if it carries a `rel` attribute whose value is exactly
`"stylesheet"` and an `href` attribute whose value resolves against the
base — with no condition on the order of the `rel` and `href` attributes
in the list — and it emits nothing otherwise (its emission, when
present, is one `Css` locator). -/
theorem claim_C5_link_emission :
    ∀ (join : JoinFn) (urlBase : Url) (attrs : List (String × String))
      (tc cs : NodeList),
      walkDom join urlBase (.elem "link" attrs tc cs) =
        linkWalk join urlBase attrs ++ walkDomList join urlBase cs ∧
      (linkWalk join urlBase attrs ≠ [] ↔
        (∃ p ∈ attrs, p.1 = "rel" ∧ p.2 = "stylesheet") ∧
        (∃ p ∈ attrs, p.1 = "href" ∧ (join urlBase p.2).isSome = true)) ∧
      (linkWalk join urlBase attrs = [] ∨
        ∃ u, linkWalk join urlBase attrs = [ResourceUrl.Css u]) := by
  intro join urlBase attrs tc cs
  refine ⟨?_, ?_, linkWalk_shape join urlBase attrs⟩
  · simp [walkDom, nodeEmits]
  · rw [linkWalk_ne_nil_iff]
    have h1 := linkFold_fst_iff join urlBase attrs (false, none)
    have h2 := linkFold_snd_iff join urlBase attrs (false, none)
    simp only [Bool.false_eq_true, false_or, Option.isSome_none] at h1 h2
    unfold linkFold
    rw [h1, h2]

/-- C10: the discovery walker never descends into a template element's
separate template-contents subtree, nor into children that are neither
text nor element nodes — erasing all template contents, or dropping all
such children, leaves the emitted locator sequence unchanged, so a
resource reference there is never emitted (and hence never fetched). -/
theorem claim_C10_hidden_subtrees :
    ∀ (join : JoinFn) (urlBase : Url) (t : Node),
      walkDom join urlBase (eraseTemplates t) = walkDom join urlBase t ∧
      walkDom join urlBase (dropJunk t) = walkDom join urlBase t :=
  fun join urlBase t =>
    ⟨walkDom_eraseTemplates join urlBase t, walkDom_dropJunk join urlBase t⟩

/-- After removing an attribute, looking it up yields nothing. -/
theorem getAttr_removeAttr : ∀ (attrs : List (String × String)) (k : String),
    getAttr (removeAttr attrs k) k = none
  | [], _ => rfl
  | a :: rest, k => by
      by_cases h : a.1 = k <;>
        simp [removeAttr, getAttr, List.filter_cons, List.find?_cons, h] <;>
        simpa [removeAttr, getAttr] using getAttr_removeAttr rest k

/-- Setting an attribute that is present makes lookup yield the new
value. -/
theorem getAttr_setAttr :
    ∀ (attrs : List (String × String)) (k v nv : String),
      getAttr attrs k = some v →
      getAttr (setAttr attrs k nv) k = some nv
  | [], k, v, nv => by simp [getAttr]
  | a :: rest, k, v, nv => by
      by_cases h : a.1 = k
      · simp [getAttr, setAttr, h]
      · intro hget
        have hrest : getAttr rest k = some v := by
          simpa [getAttr, List.find?_cons, h] using hget
        have ih := getAttr_setAttr rest k v nv hrest
        simpa [setAttr, h, getAttr, List.find?_cons] using ih

/-- C2: in the script pass of `embed_resources`, every `script` element
with a `src` attribute has that attribute removed unconditionally —
whether or not the store holds a `Javascript` entry for the resolved
locator — and gains a text child holding the stored script text exactly
when the attribute value resolves and such an entry exists; the appended
child list is otherwise empty, so a script whose fetch was skipped loses
its `src` but gains no text content. -/
theorem claim_C2_script_src_removed (join : JoinFn) (base : Url)
    (store : List (Url × Resource)) (attrs : List (String × String))
    (tc cs : NodeList) (v : String)
    (hsrc : getAttr attrs "src" = some v) :
    scriptReplace join base store (.elem "script" attrs tc cs) =
      .elem "script" (removeAttr attrs "src") tc
        (NodeList.append (scriptReplaceList join base store cs)
          (scriptExtra join base store attrs)) ∧
    getAttr (removeAttr attrs "src") "src" = none ∧
    (∀ s : String,
      scriptExtra join base store attrs =
          NodeList.cons (.text s .nil) .nil ↔
        ∃ u, join base v = some u ∧
          mapGet store u = some (Resource.Javascript s)) ∧
    (scriptExtra join base store attrs = .nil ∨
      ∃ s, scriptExtra join base store attrs =
        NodeList.cons (.text s .nil) .nil) := by
  refine ⟨by simp [scriptReplace], getAttr_removeAttr attrs "src", ?_, ?_⟩
  · intro s
    unfold scriptExtra
    rw [hsrc]
    cases hj : join base v with
    | none => simp [hj]
    | some u =>
        cases hm : mapGet store u with
        | none => simp [hj, hm]
        | some r => cases r <;> simp [hj, hm]
  · unfold scriptExtra
    rw [hsrc]
    cases hj : join base v with
    | none => simp [hj]
    | some u =>
        cases hm : mapGet store u with
        | none => simp [hj, hm]
        | some r => cases r <;> simp [hj, hm]

/-- Witness for C2: a concrete script element whose locator is missing
from the store still loses its `src` attribute. -/
theorem claim_C2_witness :
    (getAttr [("src", "c.js")] "src" = some "c.js") ∧
    getAttr (removeAttr [("src", "c.js")] "src") "src" = none :=
  ⟨by decide,
    (claim_C2_script_src_removed wJoin "http://x" [] [("src", "c.js")]
      .nil .nil "c.js" (by decide)).2.1⟩

/-- C3: in the image pass of `embed_resources`, an `img` whose `src`
resolves to a locator with a stored `Image` gets its `src` replaced by a
data URI: the new value begins with `data:`, is exactly the stored MIME
type and the base64 encoding of the stored bytes, and base64-decoding
that payload reproduces the stored bytes exactly. -/
theorem claim_C3_img_data_uri (join : JoinFn) (base : Url)
    (store : List (Url × Resource)) (attrs : List (String × String))
    (tc cs : NodeList) (v u : String) (img : ImageResource)
    (hsrc : getAttr attrs "src" = some v)
    (hjoin : join base v = some u)
    (hstore : mapGet store u = some (Resource.Image img))
    (hbytes : ∀ x ∈ img.data, x < 256) :
    imgReplace join base store (.elem "img" attrs tc cs) =
      .elem "img" (setAttr attrs "src" img.to_data_uri) tc
        (imgReplaceList join base store cs) ∧
    getAttr (setAttr attrs "src" img.to_data_uri) "src" =
      some img.to_data_uri ∧
    img.to_data_uri =
      "data:" ++ img.mimetype ++ ";base64," ++
        String.mk (b64encode img.data) ∧
    "data:".data <+: img.to_data_uri.data ∧
    b64decode (b64encode img.data) = some img.data := by
  refine ⟨?_, getAttr_setAttr attrs "src" v img.to_data_uri hsrc, rfl, ?_,
    b64_roundtrip img.data hbytes⟩
  · simp only [imgReplace, imgNewAttrs, hsrc, hjoin, hstore]
    simp
  · show "data:".data <+: ("data:" ++ img.mimetype ++ ";base64," ++
      String.mk (b64encode img.data)).data
    rw [String.append_assoc, String.append_assoc]
    simp [String.data_append]

/-- Witness for C3 at a concrete image resource. -/
theorem claim_C3_witness :
    (getAttr [("src", "a.png")] "src" = some "a.png") ∧
    (wJoin "http://x" "a.png" = some "http://x/a.png") ∧
    (mapGet [("http://x/a.png",
        Resource.Image (ImageResource.mk [77, 105] "image/png"))]
      "http://x/a.png" =
        some (Resource.Image (ImageResource.mk [77, 105] "image/png"))) ∧
    (∀ x ∈ [77, 105], x < 256) ∧
    b64decode (b64encode [77, 105]) = some [77, 105] :=
  ⟨by decide, by decide, by decide, by decide,
    (claim_C3_img_data_uri wJoin "http://x"
      [("http://x/a.png",
        Resource.Image (ImageResource.mk [77, 105] "image/png"))]
      [("src", "a.png")] .nil .nil "a.png" "http://x/a.png"
      (ImageResource.mk [77, 105] "image/png")
      (by decide) (by decide) (by decide) (by decide)).2.2.2.2⟩

/-- C7: an input address that fails to parse makes both entry points
fail with `ParseError` carrying the parse failure's message, before any
transport request is issued (the request trace is empty). -/
theorem claim_C7_parse_error (parseUrl : String → Except String Url)
    (join : JoinFn) (parseHtml : String → Node)
    (transport : Url → TransportResult) (input : String) (e : String)
    (h : parseUrl input = .error e) :
    archive parseUrl join parseHtml transport input =
      (.error (.ParseError e), []) ∧
    blockingArchive parseUrl join parseHtml transport input =
      (.error (.ParseError e), []) := by
  constructor <;> simp [archive, blockingArchive, h]

/-- Witness for C7 at a concrete malformed address. -/
theorem claim_C7_witness :
    (wParseUrl "bad~url" = .error "relative URL without a base") ∧
    archive wParseUrl wJoin wParseHtml wTransport "bad~url" =
      (.error (.ParseError "relative URL without a base"), []) :=
  ⟨rfl,
    (claim_C7_parse_error wParseUrl wJoin wParseHtml wTransport "bad~url"
      "relative URL without a base" rfl).1⟩

/-- Store lookup after insertion: the inserted key maps to the new
value, every other key is unchanged. -/
theorem mapGet_mapInsert {α : Type} :
    ∀ (m : List (Url × α)) (k u : Url) (v : α),
      mapGet (mapInsert m k v) u = if u = k then some v else mapGet m u
  | [], k, u, v => by
      by_cases h : u = k
      · subst h; simp [mapInsert, mapGet]
      · have h2 : ¬ (k = u) := fun hh => h hh.symm
        simp [mapInsert, mapGet, List.find?_cons, h, h2]
  | p :: rest, k, u, v => by
      have ih := mapGet_mapInsert rest k u v
      by_cases hp : p.1 = k
      · by_cases h : u = k
        · subst h
          simp [mapInsert, mapGet, List.find?_cons, hp]
        · have h2 : ¬ (k = u) := fun hh => h hh.symm
          have h3 : ¬ (p.1 = u) := fun hh => h2 (hp.symm.trans hh)
          simp [mapInsert, mapGet, List.find?_cons, hp, h, h2, h3]
      · by_cases hpu : p.1 = u
        · have huk : ¬ (u = k) := fun hh => hp (hpu.trans hh)
          simp [mapInsert, mapGet, List.find?_cons, hp, hpu, huk]
        · by_cases h : u = k <;>
            simp [mapInsert, mapGet, List.find?_cons, hp, hpu, h] <;>
            simpa [mapGet, h] using ih

/-- C9: `embed_resources` always returns success despite its fallible
result type — for every archive, every joining function, and every
parser/serializer pair it yields `.ok` of the serialized rewritten
tree — and each per-element failure is swallowed locally: an `img` with
no `src`, with a non-resolving `src`, or with no store entry keeps its
attributes unchanged, and the root node (the only node with no parent)
always keeps its place and shape under the CSS pass, so a parentless
`link` is skipped rather than an error. -/
theorem claim_C9_embed_never_fails :
    (∀ (join : JoinFn) (parseHtml : String → Node)
        (serialize : Node → String) (pa : PageArchive),
      pa.embed_resources join parseHtml serialize =
        .ok (serialize
          (embedTree join pa.url pa.resource_map (parseHtml pa.content)))) ∧
    (∀ (join : JoinFn) (base : Url) (store : List (Url × Resource))
        (attrs : List (String × String)),
      (getAttr attrs "src" = none →
        imgNewAttrs join base store attrs = attrs) ∧
      (∀ v, getAttr attrs "src" = some v → join base v = none →
        imgNewAttrs join base store attrs = attrs) ∧
      (∀ v u, getAttr attrs "src" = some v → join base v = some u →
        mapGet store u = none →
        imgNewAttrs join base store attrs = attrs)) ∧
    (∀ (join : JoinFn) (base : Url) (store : List (Url × Resource))
        (name : String) (attrs : List (String × String)) (tc cs : NodeList),
      cssReplace join base store (.elem name attrs tc cs) =
        .elem name attrs tc
          (cssRebuild join base store (cssReplaceList join base store cs))) := by
  refine ⟨fun _ _ _ _ => rfl, ?_, fun _ _ _ _ _ _ _ => rfl⟩
  intro join base store attrs
  refine ⟨?_, ?_, ?_⟩
  · intro h; simp [imgNewAttrs, h]
  · intro v h hj; simp [imgNewAttrs, h, hj]
  · intro v u h hj hm; simp [imgNewAttrs, h, hj, hm]

/-- Witness for C9: a concrete `img` with an unresolvable `src` keeps
its attributes. -/
theorem claim_C9_witness :
    (getAttr [("src", "")] "src" = some "") ∧ (wJoin "http://x" "" = none) ∧
    imgNewAttrs wJoin "http://x" [] [("src", "")] = [("src", "")] :=
  ⟨by decide, by decide,
    (claim_C9_embed_never_fails.2.1 wJoin "http://x" [] [("src", "")]).2.1
      "" (by decide) (by decide)⟩

/-- A key present after the fetch loop was present before, or its
transport response was a 200. -/
theorem fetchLoop_mem_status (transport : Url → TransportResult) :
    ∀ (rus : List ResourceUrl) (m m' : List (Url × Resource)),
      (fetchLoop transport rus m).1 = .ok m' →
      ∀ u r, mapGet m' u = some r →
        mapGet m u = some r ∨
          ∃ resp, transport u = .ok resp ∧ resp.status = 200
  | [], m, m' => by
      intro h u r hm
      simp [fetchLoop] at h
      exact Or.inl (h ▸ hm)
  | ru :: rest, m, m' => by
      intro h u r hm
      cases htr : transport ru.url with
      | err msg => simp [fetchLoop, htr] at h
      | ok resp =>
          by_cases hs : resp.status = 200
          · have h2 : (fetchLoop transport rest
                (mapInsert m ru.url (asyncResourceOf ru resp))).1 = .ok m' := by
              simpa [fetchLoop, htr, hs] using h
            rcases fetchLoop_mem_status transport rest _ m' h2 u r hm with
              hl | hr
            · rw [mapGet_mapInsert] at hl
              by_cases hu : u = ru.url
              · exact Or.inr ⟨resp, hu ▸ htr, hs⟩
              · rw [if_neg hu] at hl
                exact Or.inl hl
            · exact Or.inr hr
          · have h2 : (fetchLoop transport rest m).1 = .ok m' := by
              simpa [fetchLoop, htr, hs] using h
            exact fetchLoop_mem_status transport rest m m' h2 u r hm

/-- When every transport call returns a response, the fetch loop never
fails and requests every locator in order, whatever the statuses. -/
theorem fetchLoop_all_ok (transport : Url → TransportResult) :
    ∀ (rus : List ResourceUrl) (m : List (Url × Resource)),
      (∀ ru ∈ rus, (transport ru.url).isOk = true) →
      ∃ m', fetchLoop transport rus m = (.ok m', rus.map ResourceUrl.url)
  | [], m => fun _ => ⟨m, rfl⟩
  | ru :: rest, m => fun h => by
      have hok := h ru (by simp)
      cases htr : transport ru.url with
      | err msg => rw [htr] at hok; simp [TransportResult.isOk] at hok
      | ok resp =>
          have hrest : ∀ r ∈ rest, (transport r.url).isOk = true :=
            fun r hr => h r (by simp [hr])
          by_cases hs : resp.status = 200
          · obtain ⟨m', hm'⟩ := fetchLoop_all_ok transport rest
              (mapInsert m ru.url (asyncResourceOf ru resp)) hrest
            exact ⟨m', by simp [fetchLoop, htr, hs, hm']⟩
          · obtain ⟨m', hm'⟩ := fetchLoop_all_ok transport rest m hrest
            exact ⟨m', by simp [fetchLoop, htr, hs, hm']⟩

/-- Every key of a successfully built archive's store got a 200
response from the transport. -/
theorem archive_store_status (parseUrl : String → Except String Url)
    (join : JoinFn) (parseHtml : String → Node)
    (transport : Url → TransportResult) (input : String) (pa : PageArchive)
    (h : (archive parseUrl join parseHtml transport input).1 = .ok pa) :
    ∀ u r, mapGet pa.resource_map u = some r →
      ∃ resp, transport u = .ok resp ∧ resp.status = 200 := by
  cases hp : parseUrl input with
  | error e => simp [archive, hp] at h
  | ok url =>
      cases htr : transport url with
      | err msg => simp [archive, hp, htr] at h
      | ok resp =>
          rcases hfl : fetchLoop transport
            (walkDom join url (parseHtml resp.textBody)) [] with ⟨res, tr⟩
          cases res with
          | error e => simp [archive, hp, htr, hfl, Except.map] at h
          | ok m' =>
              simp [archive, hp, htr, hfl, Except.map] at h
              intro u r hm
              have hres : (fetchLoop transport
                  (walkDom join url (parseHtml resp.textBody)) []).1 =
                    .ok m' := by rw [hfl]
              have hm' : mapGet m' u = some r := by
                rw [← h] at hm
                simpa using hm
              rcases fetchLoop_mem_status transport _ [] m' hres u r hm' with
                hl | hr
              · simp [mapGet] at hl
              · exact hr

/-- The blocking classification forgets exactly the MIME type of the
async classification. -/
theorem blockingResourceOf_eq (ru : ResourceUrl) (resp : Response) :
    blockingResourceOf ru resp = forgetMime (asyncResourceOf ru resp) := by
  cases ru <;> rfl

/-- Insertion commutes with mapping a function over stored values. -/
theorem mapInsert_mapVal {α β : Type} (f : α → β) :
    ∀ (m : List (Url × α)) (k : Url) (v : α),
      mapInsert (m.map (fun p => (p.1, f p.2))) k (f v) =
        (mapInsert m k v).map (fun p => (p.1, f p.2))
  | [], k, v => rfl
  | p :: rest, k, v => by
      by_cases hp : p.1 = k <;>
        simp [mapInsert, hp, mapInsert_mapVal f rest k v]

/-- Lookup commutes with mapping a function over stored values. -/
theorem mapGet_mapVal {α β : Type} (f : α → β) :
    ∀ (m : List (Url × α)) (u : Url),
      mapGet (m.map (fun p => (p.1, f p.2))) u = (mapGet m u).map f
  | [], u => rfl
  | p :: rest, u => by
      by_cases hp : p.1 = u <;>
        simp [mapGet, List.find?_cons, hp] <;>
        simpa [mapGet] using mapGet_mapVal f rest u

/-- The blocking fetch loop simulates the async one, forgetting image
MIME types: same trace, same success or failure, stores related by
`forgetMime`. -/
theorem blockingFetchLoop_eq (transport : Url → TransportResult) :
    ∀ (rus : List ResourceUrl) (m : List (Url × Resource)),
      blockingFetchLoop transport rus
          (m.map (fun p => (p.1, forgetMime p.2))) =
        ((fetchLoop transport rus m).1.map
            (fun s => s.map (fun p => (p.1, forgetMime p.2))),
          (fetchLoop transport rus m).2)
  | [], m => by simp [fetchLoop, blockingFetchLoop, Except.map]
  | ru :: rest, m => by
      cases htr : transport ru.url with
      | err msg => simp [fetchLoop, blockingFetchLoop, htr, Except.map]
      | ok resp =>
          by_cases hs : resp.status = 200
          · have e1 : mapInsert (m.map (fun p => (p.1, forgetMime p.2)))
                ru.url (blockingResourceOf ru resp) =
                  (mapInsert m ru.url (asyncResourceOf ru resp)).map
                    (fun p => (p.1, forgetMime p.2)) := by
              rw [blockingResourceOf_eq]
              exact mapInsert_mapVal _ _ _ _
            have ih := blockingFetchLoop_eq transport rest
              (mapInsert m ru.url (asyncResourceOf ru resp))
            simp [fetchLoop, blockingFetchLoop, htr, hs, e1, ih]
          · have ih := blockingFetchLoop_eq transport rest m
            simp [fetchLoop, blockingFetchLoop, htr, hs, ih]

/-- The blocking entry point simulates the async one: identical request
trace, identical success or failure, identical page content, and a store
related payload-by-payload by forgetting the image MIME type (and the
archive's base URL field, which the blocking constructor omits). -/
theorem blockingArchive_refines (parseUrl : String → Except String Url)
    (join : JoinFn) (parseHtml : String → Node)
    (transport : Url → TransportResult) (input : String) :
    blockingArchive parseUrl join parseHtml transport input =
      ((archive parseUrl join parseHtml transport input).1.map forgetArchive,
        (archive parseUrl join parseHtml transport input).2) := by
  cases hp : parseUrl input with
  | error e => simp [archive, blockingArchive, hp, Except.map]
  | ok url =>
      cases htr : transport url with
      | err msg => simp [archive, blockingArchive, hp, htr, Except.map]
      | ok resp =>
          have h := blockingFetchLoop_eq transport
            (walkDom join url (parseHtml resp.textBody)) []
          simp only [List.map_nil] at h
          rcases hfl : fetchLoop transport
            (walkDom join url (parseHtml resp.textBody)) [] with ⟨res, tr⟩
          rw [hfl] at h
          simp [archive, blockingArchive, hp, htr, hfl, h]
          cases res <;> simp [forgetArchive, Except.map]

/-- The async store built by the witness run. -/
def wStoreA : List (Url × Resource) :=
  [("http://x/a.png", Resource.Image (ImageResource.mk [5] "")),
   ("http://x/b.css", Resource.Css "page"),
   ("http://x/c.js", Resource.Javascript "page")]

/-- The blocking store built by the witness run. -/
def wStoreB : List (Url × BlockingResource) :=
  [("http://x/a.png", BlockingResource.Image [5]),
   ("http://x/b.css", BlockingResource.Css "page"),
   ("http://x/c.js", BlockingResource.Javascript "page")]

/-- C6: a locator is a key of the resource store only if its transport
response had status exactly 200 — in both entry points — and a
non-success status never fails the page: when every transport call
returns a response, the fetch loop succeeds and requests every locator
in order, whatever the statuses, recording nothing for the non-200
ones. -/
theorem claim_C6_only_success_stored :
    (∀ (parseUrl : String → Except String Url) (join : JoinFn)
        (parseHtml : String → Node) (transport : Url → TransportResult)
        (input : String) (pa : PageArchive),
      (archive parseUrl join parseHtml transport input).1 = .ok pa →
      ∀ u r, mapGet pa.resource_map u = some r →
        ∃ resp, transport u = .ok resp ∧ resp.status = 200) ∧
    (∀ (parseUrl : String → Except String Url) (join : JoinFn)
        (parseHtml : String → Node) (transport : Url → TransportResult)
        (input : String) (bpa : BlockingPageArchive),
      (blockingArchive parseUrl join parseHtml transport input).1 =
        .ok bpa →
      ∀ u br, mapGet bpa.resource_map u = some br →
        ∃ resp, transport u = .ok resp ∧ resp.status = 200) ∧
    (∀ (transport : Url → TransportResult) (rus : List ResourceUrl)
        (m : List (Url × Resource)),
      (∀ ru ∈ rus, (transport ru.url).isOk = true) →
      ∃ m', fetchLoop transport rus m =
        (.ok m', rus.map ResourceUrl.url)) := by
  refine ⟨?_, ?_, fun transport rus m h => fetchLoop_all_ok transport rus m h⟩
  · intro parseUrl join parseHtml transport input pa h u r hm
    exact archive_store_status parseUrl join parseHtml transport input pa h
      u r hm
  · intro parseUrl join parseHtml transport input bpa h u br hm
    rw [blockingArchive_refines] at h
    cases ha : (archive parseUrl join parseHtml transport input).1 with
    | error e => rw [ha] at h; simp [Except.map] at h
    | ok pa =>
        rw [ha] at h
        simp only [Except.map, Except.ok.injEq] at h
        rw [← h] at hm
        simp only [forgetArchive] at hm
        rw [mapGet_mapVal] at hm
        rcases Option.map_eq_some'.mp hm with ⟨r, hr, _⟩
        exact archive_store_status parseUrl join parseHtml transport input
          pa ha u r hr

/-- Witness for C6: the witness run stores the image locator, and its
transport response was a 200. -/
theorem claim_C6_witness :
    ((archive wParseUrl wJoin wParseHtml wTransport "http://x").1 =
      .ok (PageArchive.mk "http://x" "page" wStoreA)) ∧
    (mapGet wStoreA "http://x/a.png" =
      some (Resource.Image (ImageResource.mk [5] ""))) ∧
    ∃ resp, wTransport "http://x/a.png" = .ok resp ∧ resp.status = 200 :=
  ⟨rfl, by decide,
    claim_C6_only_success_stored.1 wParseUrl wJoin wParseHtml wTransport
      "http://x" (PageArchive.mk "http://x" "page" wStoreA) rfl
      "http://x/a.png" (Resource.Image (ImageResource.mk [5] ""))
      (by decide)⟩

/-- C8 (amended): for identical inputs the two entry points issue the
same requests in the same order, succeed or fail identically, and build
the same page content and the same store keys in the same order with the
same stylesheet and script texts and the same image bytes; the async
store additionally carries an image MIME type field (always empty) that
the blocking store does not track, which with the omitted base URL field
is exactly what `forgetArchive` forgets. -/
theorem claim_C8_entry_points_agree :
    ∀ (parseUrl : String → Except String Url) (join : JoinFn)
      (parseHtml : String → Node) (transport : Url → TransportResult)
      (input : String),
      blockingArchive parseUrl join parseHtml transport input =
        ((archive parseUrl join parseHtml transport input).1.map
            forgetArchive,
          (archive parseUrl join parseHtml transport input).2) :=
  fun parseUrl join parseHtml transport input =>
    blockingArchive_refines parseUrl join parseHtml transport input

/-- Counterexample for C8 as stated: on a page with one image the two
entry points do not record identical payloads including the MIME type —
the async run stores an (empty) MIME type for the image where the
blocking run stores none at all. -/
theorem claim_C8_counterexample :
    ((archive wParseUrl wJoin wParseHtml wTransport "http://x").1 =
      .ok (PageArchive.mk "http://x" "page" wStoreA)) ∧
    ((blockingArchive wParseUrl wJoin wParseHtml wTransport "http://x").1 =
      .ok (BlockingPageArchive.mk "page" wStoreB)) ∧
    storeView Resource.view wStoreA ≠ storeView BlockingResource.view wStoreB :=
  ⟨rfl, rfl, by decide⟩

/-- The CSS pass does not change a node's own stylesheet test (only its
children). -/
theorem nodeCssData_cssReplace (join : JoinFn) (base : Url)
    (store : List (Url × Resource)) : ∀ (c : Node),
    nodeCssData join base store (cssReplace join base store c) =
      nodeCssData join base store c
  | .elem _ _ _ _ => rfl
  | .text _ _ => rfl
  | .comment _ _ => rfl
  | .other _ => rfl

/-- Appending node lists adds tag counts. -/
theorem countTagList_append (tag : String) : ∀ (xs ys : NodeList),
    countTagList tag (NodeList.append xs ys) =
      countTagList tag xs + countTagList tag ys
  | .nil, ys => by simp [NodeList.append, countTagList]
  | .cons c cs, ys => by
      simp [NodeList.append, countTagList, countTagList_append tag cs ys]
      omega

/-- Appending node lists concatenates their style listings. -/
theorem stylesList_append : ∀ (xs ys : NodeList),
    stylesList (NodeList.append xs ys) = stylesList xs ++ stylesList ys
  | .nil, ys => by simp [NodeList.append, stylesList]
  | .cons c cs, ys => by
      simp [NodeList.append, stylesList, stylesList_append cs ys]

/-- The extra child list of the script pass contains no elements, so it
changes no tag count. -/
theorem countTagList_scriptExtra (join : JoinFn) (base : Url)
    (store : List (Url × Resource)) (tag : String)
    (attrs : List (String × String)) :
    countTagList tag (scriptExtra join base store attrs) = 0 := by
  unfold scriptExtra
  cases h1 : getAttr attrs "src" with
  | none => simp [countTagList]
  | some v =>
      cases h2 : join base v with
      | none => simp [h2, countTagList]
      | some u =>
          cases h3 : mapGet store u with
          | none => simp [h2, h3, countTagList]
          | some r => cases r <;> simp [h2, h3, countTagList, countTag]

/-- The extra child list of the script pass contains no `style`
elements. -/
theorem stylesList_scriptExtra (join : JoinFn) (base : Url)
    (store : List (Url × Resource)) (attrs : List (String × String)) :
    stylesList (scriptExtra join base store attrs) = [] := by
  unfold scriptExtra
  cases h1 : getAttr attrs "src" with
  | none => simp [stylesList]
  | some v =>
      cases h2 : join base v with
      | none => simp [h2, stylesList]
      | some u =>
          cases h3 : mapGet store u with
          | none => simp [h2, h3, stylesList]
          | some r => cases r <;> simp [h2, h3, stylesList, stylesOf]

mutual

/-- The image pass changes no tag counts. -/
theorem countTag_imgReplace (join : JoinFn) (base : Url)
    (store : List (Url × Resource)) (tag : String) : ∀ (t : Node),
    countTag tag (imgReplace join base store t) = countTag tag t
  | .elem name attrs tc cs => by
      simp [imgReplace, countTag,
        countTagList_imgReplaceList join base store tag cs]
  | .text s cs => by
      simp [imgReplace, countTag,
        countTagList_imgReplaceList join base store tag cs]
  | .comment s cs => by
      simp [imgReplace, countTag,
        countTagList_imgReplaceList join base store tag cs]
  | .other cs => by
      simp [imgReplace, countTag,
        countTagList_imgReplaceList join base store tag cs]

/-- List version of `countTag_imgReplace`. -/
theorem countTagList_imgReplaceList (join : JoinFn) (base : Url)
    (store : List (Url × Resource)) (tag : String) : ∀ (cs : NodeList),
    countTagList tag (imgReplaceList join base store cs) =
      countTagList tag cs
  | .nil => rfl
  | .cons c cs => by
      simp [imgReplaceList, countTagList,
        countTag_imgReplace join base store tag c,
        countTagList_imgReplaceList join base store tag cs]

end

mutual

/-- The image pass does not change which links pass the stylesheet
test: it rewrites only the attributes of `img`-named elements. -/
theorem allLinksCss_imgReplace (join : JoinFn) (base : Url)
    (store : List (Url × Resource)) (css : String) : ∀ (t : Node),
    allLinksCss join base store css (imgReplace join base store t) =
      allLinksCss join base store css t
  | .elem name attrs tc cs => by
      by_cases h : name = "link"
      · subst h
        simp [imgReplace, allLinksCss, nodeCssData,
          allLinksCssList_imgReplaceList join base store css cs]
      · simp [imgReplace, allLinksCss, h,
          allLinksCssList_imgReplaceList join base store css cs]
  | .text s cs => by
      simp [imgReplace, allLinksCss,
        allLinksCssList_imgReplaceList join base store css cs]
  | .comment s cs => by
      simp [imgReplace, allLinksCss,
        allLinksCssList_imgReplaceList join base store css cs]
  | .other cs => by
      simp [imgReplace, allLinksCss,
        allLinksCssList_imgReplaceList join base store css cs]

/-- List version of `allLinksCss_imgReplace`. -/
theorem allLinksCssList_imgReplaceList (join : JoinFn) (base : Url)
    (store : List (Url × Resource)) (css : String) : ∀ (cs : NodeList),
    allLinksCssList join base store css (imgReplaceList join base store cs) =
      allLinksCssList join base store css cs
  | .nil => rfl
  | .cons c cs => by
      simp [imgReplaceList, allLinksCssList,
        allLinksCss_imgReplace join base store css c,
        allLinksCssList_imgReplaceList join base store css cs]

end

mutual

/-- The script pass changes no tag counts: it only rewrites attributes
of `script` elements and appends text children. -/
theorem countTag_scriptReplace (join : JoinFn) (base : Url)
    (store : List (Url × Resource)) (tag : String) : ∀ (t : Node),
    countTag tag (scriptReplace join base store t) = countTag tag t
  | .elem name attrs tc cs => by
      by_cases h : name = "script" <;>
        simp [scriptReplace, countTag, h, countTagList_append,
          countTagList_scriptExtra,
          countTagList_scriptReplaceList join base store tag cs]
  | .text s cs => by
      simp [scriptReplace, countTag,
        countTagList_scriptReplaceList join base store tag cs]
  | .comment s cs => by
      simp [scriptReplace, countTag,
        countTagList_scriptReplaceList join base store tag cs]
  | .other cs => by
      simp [scriptReplace, countTag,
        countTagList_scriptReplaceList join base store tag cs]

/-- List version of `countTag_scriptReplace`. -/
theorem countTagList_scriptReplaceList (join : JoinFn) (base : Url)
    (store : List (Url × Resource)) (tag : String) : ∀ (cs : NodeList),
    countTagList tag (scriptReplaceList join base store cs) =
      countTagList tag cs
  | .nil => rfl
  | .cons c cs => by
      simp [scriptReplaceList, countTagList,
        countTag_scriptReplace join base store tag c,
        countTagList_scriptReplaceList join base store tag cs]

end

mutual

/-- The script pass maps the style listing elementwise: every `style`
element survives in place, transformed. -/
theorem stylesOf_scriptReplace (join : JoinFn) (base : Url)
    (store : List (Url × Resource)) : ∀ (t : Node),
    stylesOf (scriptReplace join base store t) =
      (stylesOf t).map (scriptReplace join base store)
  | .elem name attrs tc cs => by
      by_cases h : name = "script"
      · subst h
        simp [scriptReplace, stylesOf, stylesList_append,
          stylesList_scriptExtra,
          stylesList_scriptReplaceList join base store cs]
      · by_cases hs : name = "style" <;>
          simp [scriptReplace, stylesOf, h, hs,
            stylesList_scriptReplaceList join base store cs]
  | .text s cs => by
      simp [scriptReplace, stylesOf,
        stylesList_scriptReplaceList join base store cs]
  | .comment s cs => by
      simp [scriptReplace, stylesOf,
        stylesList_scriptReplaceList join base store cs]
  | .other cs => by
      simp [scriptReplace, stylesOf,
        stylesList_scriptReplaceList join base store cs]

/-- List version of `stylesOf_scriptReplace`. -/
theorem stylesList_scriptReplaceList (join : JoinFn) (base : Url)
    (store : List (Url × Resource)) : ∀ (cs : NodeList),
    stylesList (scriptReplaceList join base store cs) =
      (stylesList cs).map (scriptReplace join base store)
  | .nil => rfl
  | .cons c cs => by
      simp [scriptReplaceList, stylesList,
        stylesOf_scriptReplace join base store c,
        stylesList_scriptReplaceList join base store cs]

end

/-- A node the CSS pass replaces is necessarily a `link` element. -/
theorem nodeCssData_isLink (join : JoinFn) (base : Url)
    (store : List (Url × Resource)) : ∀ (c : Node) (css' : String),
    nodeCssData join base store c = some css' → isLink c = true
  | .elem name attrs tc cs, css' => by
      intro h
      by_cases hn : name = "link"
      · simp [isLink, hn]
      · simp [nodeCssData, linkCssData, hn] at h
  | .text _ _, css' => by intro h; simp [nodeCssData] at h
  | .comment _ _, css' => by intro h; simp [nodeCssData] at h
  | .other _, css' => by intro h; simp [nodeCssData] at h

/-- When every link of a tree passes the stylesheet test with text
`css`, a node the CSS pass replaces always carries exactly `css`. -/
theorem allLinksCss_data (join : JoinFn) (base : Url)
    (store : List (Url × Resource)) (css : String) :
    ∀ (c : Node) (css' : String),
      allLinksCss join base store css c = true →
      nodeCssData join base store c = some css' → css' = css
  | .elem name attrs tc cs, css' => by
      intro hall hdata
      by_cases hn : name = "link"
      · subst hn
        simp [allLinksCss, beq_iff_eq] at hall
        rw [hall.1] at hdata
        exact (Option.some_inj.mp hdata).symm
      · simp [nodeCssData, linkCssData, hn] at hdata
  | .text _ _, css' => by intro _ h; simp [nodeCssData] at h
  | .comment _ _, css' => by intro _ h; simp [nodeCssData] at h
  | .other _, css' => by intro _ h; simp [nodeCssData] at h

/-- When every link of a tree passes the stylesheet test, a node the
CSS pass keeps is never a `link` element. -/
theorem allLinksCss_none_notLink (join : JoinFn) (base : Url)
    (store : List (Url × Resource)) (css : String) : ∀ (c : Node),
    allLinksCss join base store css c = true →
    nodeCssData join base store c = none → isLink c = false
  | .elem name attrs tc cs => by
      intro hall hdata
      by_cases hn : name = "link"
      · subst hn
        simp [allLinksCss, beq_iff_eq] at hall
        rw [hall.1] at hdata
        simp at hdata
      · simp [isLink, hn]
  | .text _ _ => fun _ _ => rfl
  | .comment _ _ => fun _ _ => rfl
  | .other _ => fun _ _ => rfl

/-- A `link` element contributes at least one to the link count. -/
theorem isLink_countTag : ∀ (c : Node),
    isLink c = true → 1 ≤ countTag "link" c
  | .elem name attrs tc cs => by
      intro h
      simp only [isLink, decide_eq_true_eq] at h
      simp [countTag, h]
  | .text _ _ => by intro h; simp [isLink] at h
  | .comment _ _ => by intro h; simp [isLink] at h
  | .other _ => by intro h; simp [isLink] at h

/-- `cssReplaceList` distributes over append. -/
theorem cssReplaceList_append (join : JoinFn) (base : Url)
    (store : List (Url × Resource)) : ∀ (xs ys : NodeList),
    cssReplaceList join base store (NodeList.append xs ys) =
      NodeList.append (cssReplaceList join base store xs)
        (cssReplaceList join base store ys)
  | .nil, ys => rfl
  | .cons c cs, ys => by
      simp [NodeList.append, cssReplaceList,
        cssReplaceList_append join base store cs ys]

/-- `cssKept` distributes over append. -/
theorem cssKept_append (join : JoinFn) (base : Url)
    (store : List (Url × Resource)) : ∀ (xs ys : NodeList),
    cssKept join base store (NodeList.append xs ys) =
      NodeList.append (cssKept join base store xs)
        (cssKept join base store ys)
  | .nil, ys => rfl
  | .cons c cs, ys => by
      by_cases h : (nodeCssData join base store c).isSome = true <;>
        simp [NodeList.append, cssKept, h,
          cssKept_append join base store cs ys]

/-- `cssStyles` distributes over append. -/
theorem cssStyles_append (join : JoinFn) (base : Url)
    (store : List (Url × Resource)) : ∀ (xs ys : NodeList),
    cssStyles join base store (NodeList.append xs ys) =
      NodeList.append (cssStyles join base store xs)
        (cssStyles join base store ys)
  | .nil, ys => rfl
  | .cons c cs, ys => by
      cases h : nodeCssData join base store c <;>
        simp [NodeList.append, cssStyles, h,
          cssStyles_append join base store cs ys]

/-- A child list that produces no new `<style>` elements is kept
whole. -/
theorem cssKept_of_noStyles (join : JoinFn) (base : Url)
    (store : List (Url × Resource)) : ∀ (xs : NodeList),
    cssStyles join base store xs = .nil → cssKept join base store xs = xs
  | .nil => fun _ => rfl
  | .cons c cs => by
      intro h
      cases hm : nodeCssData join base store c with
      | some css => simp [cssStyles, hm] at h
      | none =>
          simp only [cssStyles, hm] at h
          simp [cssKept, hm, cssKept_of_noStyles join base store cs h]

/-- A freshly created `<style>` element is not a `link`. -/
theorem countTag_link_styleNode (css : String) :
    countTag "link" (styleNode css) = 0 := rfl

/-- A freshly created `<style>` element lists exactly itself as a
style. -/
theorem stylesOf_styleNode (css : String) :
    stylesOf (styleNode css) = [styleNode css] := rfl

mutual

/-- On a tree whose links all pass the stylesheet test with text `css`,
which contains no `style` element and at most one `link` element, the
CSS pass removes every non-root link and produces exactly one new
`<style>` element per removed link, each equal to `styleNode css`. -/
theorem cssReplace_counts (join : JoinFn) (base : Url)
    (store : List (Url × Resource)) (css : String) : ∀ (t : Node),
    allLinksCss join base store css t = true →
    countTag "style" t = 0 →
    countTag "link" t ≤ 1 →
    countTag "link" (cssReplace join base store t) =
      (if isLink t = true then 1 else 0) ∧
    stylesOf (cssReplace join base store t) =
      List.replicate
        (countTag "link" t - (if isLink t = true then 1 else 0))
        (styleNode css)
  | .elem name attrs tc cs => by
      intro hall hsty hlnk
      have hallc : allLinksCssList join base store css cs = true := by
        simp only [allLinksCss, Bool.and_eq_true] at hall
        exact hall.2
      have hname : ¬ name = "style" := by
        intro hn
        simp [countTag, hn] at hsty
      have hstyc : countTagList "style" cs = 0 := by
        by_cases h : name = "style" <;> simp [countTag, h] at hsty <;>
          omega
      have hlnkc : countTagList "link" cs ≤ 1 := by
        by_cases h : name = "link" <;> simp [countTag, h] at hlnk <;>
          omega
      obtain ⟨ih1, ih2⟩ :=
        cssReplaceList_counts join base store css cs hallc hstyc hlnkc
      constructor
      · simp [cssReplace, countTag, ih1, isLink]
      · have harith :
            countTag "link" (.elem name attrs tc cs) -
              (if isLink (.elem name attrs tc cs) = true then 1 else 0) =
              countTagList "link" cs := by
          by_cases h : name = "link" <;>
            simp [countTag, isLink, h] <;> omega
        rw [harith]
        simp [cssReplace, stylesOf, hname, ih2]
  | .text s cs => by
      intro hall hsty hlnk
      obtain ⟨ih1, ih2⟩ := cssReplaceList_counts join base store css cs
        (by simpa [allLinksCss] using hall)
        (by simpa [countTag] using hsty)
        (by simpa [countTag] using hlnk)
      refine ⟨by simpa [cssReplace, countTag] using ih1, ?_⟩
      simp [cssReplace, stylesOf, isLink, countTag, ih2]
  | .comment s cs => by
      intro hall hsty hlnk
      obtain ⟨ih1, ih2⟩ := cssReplaceList_counts join base store css cs
        (by simpa [allLinksCss] using hall)
        (by simpa [countTag] using hsty)
        (by simpa [countTag] using hlnk)
      refine ⟨by simpa [cssReplace, countTag] using ih1, ?_⟩
      simp [cssReplace, stylesOf, isLink, countTag, ih2]
  | .other cs => by
      intro hall hsty hlnk
      obtain ⟨ih1, ih2⟩ := cssReplaceList_counts join base store css cs
        (by simpa [allLinksCss] using hall)
        (by simpa [countTag] using hsty)
        (by simpa [countTag] using hlnk)
      refine ⟨by simpa [cssReplace, countTag] using ih1, ?_⟩
      simp [cssReplace, stylesOf, isLink, countTag, ih2]

/-- List version of `cssReplace_counts`, phrased about one parent's
rebuilt child list. -/
theorem cssReplaceList_counts (join : JoinFn) (base : Url)
    (store : List (Url × Resource)) (css : String) : ∀ (cs : NodeList),
    allLinksCssList join base store css cs = true →
    countTagList "style" cs = 0 →
    countTagList "link" cs ≤ 1 →
    countTagList "link"
        (cssRebuild join base store (cssReplaceList join base store cs)) =
      0 ∧
    stylesList
        (cssRebuild join base store (cssReplaceList join base store cs)) =
      List.replicate (countTagList "link" cs) (styleNode css)
  | .nil => by
      intro _ _ _
      simp [cssReplaceList, cssRebuild, cssKept, cssStyles, NodeList.append,
        countTagList, stylesList]
  | .cons c cs => by
      intro hall hsty hlnk
      have hc : allLinksCss join base store css c = true := by
        simp only [allLinksCssList, Bool.and_eq_true] at hall
        exact hall.1
      have hcs : allLinksCssList join base store css cs = true := by
        simp only [allLinksCssList, Bool.and_eq_true] at hall
        exact hall.2
      have hstyc : countTag "style" c = 0 := by
        simp only [countTagList] at hsty; omega
      have hstycs : countTagList "style" cs = 0 := by
        simp only [countTagList] at hsty; omega
      have hlnksum : countTag "link" c + countTagList "link" cs ≤ 1 := by
        simpa [countTagList] using hlnk
      obtain ⟨ihl1, ihl2⟩ :=
        cssReplaceList_counts join base store css cs hcs hstycs (by omega)
      simp only [cssRebuild, countTagList_append, stylesList_append]
        at ihl1 ihl2
      cases hm : nodeCssData join base store c with
      | some css2 =>
          have hcssEq : css2 = css :=
            allLinksCss_data join base store css c css2 hc hm
          subst hcssEq
          have hlinkc : isLink c = true :=
            nodeCssData_isLink join base store c css2 hm
          have h1c : 1 ≤ countTag "link" c := isLink_countTag c hlinkc
          have hc1 : countTag "link" c = 1 := by omega
          have hcs0 : countTagList "link" cs = 0 := by omega
          rw [hcs0] at ihl2
          simp only [List.replicate, List.append_eq_nil] at ihl2
          have hm2 : nodeCssData join base store
              (cssReplace join base store c) = some css2 := by
            rw [nodeCssData_cssReplace]; exact hm
          simp only [cssReplaceList, cssRebuild, cssKept, cssStyles, hm2,
            Option.isSome_some, if_true, countTagList_append,
            countTagList, stylesList_append, stylesList,
            countTag_link_styleNode, stylesOf_styleNode, hc1, hcs0]
          constructor
          · omega
          · rw [ihl2.1, ihl2.2]
            simp [List.replicate]
      | none =>
          have hnl : isLink c = false :=
            allLinksCss_none_notLink join base store css c hc hm
          obtain ⟨ihc1, ihc2⟩ :=
            cssReplace_counts join base store css c hc hstyc (by omega)
          rw [hnl] at ihc1 ihc2
          simp only [Bool.false_eq_true, if_false, Nat.sub_zero]
            at ihc1 ihc2
          have hm2 : nodeCssData join base store
              (cssReplace join base store c) = none := by
            rw [nodeCssData_cssReplace]; exact hm
          simp only [cssReplaceList, cssRebuild, cssKept, cssStyles, hm2,
            Option.isSome_none, Bool.false_eq_true, if_false,
            NodeList.append, countTagList, stylesList,
            countTagList_append, stylesList_append]
          constructor
          · omega
          · rw [ihc2, ihl2, ← List.replicate_add]

end

/-- The CSS pass at one parent: with the replaced `link` between
unreplaced siblings, the link is detached and exactly one new `<style>`
element is appended as the last child. -/
theorem cssReplace_parent_shape (join : JoinFn) (base : Url)
    (store : List (Url × Resource)) (css : String) (name : String)
    (attrs : List (String × String)) (tc pre post : NodeList) (L : Node)
    (hL : nodeCssData join base store L = some css)
    (hpre : cssStyles join base store
      (cssReplaceList join base store pre) = .nil)
    (hpost : cssStyles join base store
      (cssReplaceList join base store post) = .nil) :
    cssReplace join base store
        (.elem name attrs tc (NodeList.append pre (.cons L post))) =
      .elem name attrs tc
        (NodeList.append
          (NodeList.append (cssReplaceList join base store pre)
            (cssReplaceList join base store post))
          (.cons (styleNode css) .nil)) := by
  have hL2 : nodeCssData join base store (cssReplace join base store L) =
      some css := by
    rw [nodeCssData_cssReplace]; exact hL
  simp only [cssReplace, cssReplaceList_append, cssReplaceList, cssRebuild,
    cssKept_append, cssStyles_append, cssKept, cssStyles, hL2,
    Option.isSome_some, if_true, hpre, hpost,
    cssKept_of_noStyles join base store _ hpre,
    cssKept_of_noStyles join base store _ hpost, NodeList.append]

mutual

/-- The `style` count of a tree is the length of its style listing. -/
theorem countTag_style_len : ∀ (t : Node),
    countTag "style" t = (stylesOf t).length
  | .elem name attrs tc cs => by
      by_cases h : name = "style" <;>
        simp [countTag, stylesOf, h, countTagList_style_len cs] <;> omega
  | .text s cs => by simp [countTag, stylesOf, countTagList_style_len cs]
  | .comment s cs => by simp [countTag, stylesOf, countTagList_style_len cs]
  | .other cs => by simp [countTag, stylesOf, countTagList_style_len cs]

/-- List version of `countTag_style_len`. -/
theorem countTagList_style_len : ∀ (cs : NodeList),
    countTagList "style" cs = (stylesList cs).length
  | .nil => rfl
  | .cons c cs => by
      simp [countTagList, stylesList, countTag_style_len c,
        countTagList_style_len cs]

end

/-- The script pass leaves a freshly created `<style>` element
untouched. -/
theorem scriptReplace_styleNode (join : JoinFn) (base : Url)
    (store : List (Url × Resource)) (css : String) :
    scriptReplace join base store (styleNode css) = styleNode css := rfl

/-- C1 (amended): for an archive whose parsed document is a document
root containing exactly one `link` element — which passes the stylesheet
test with stored text `css` — and no `style` element, `embed_resources`
succeeds and the rewritten tree contains no `link` element and exactly
one `style` element, namely a fresh `<style>` whose single text child is
the stored CSS text verbatim; and at the link's parent, the CSS pass
detaches the `link` and appends that `<style>` as the last child (the
claim as frozen omits the no-`style` hypothesis; with a pre-existing
`style` element the output contains two, see the counterexample). -/
theorem claim_C1_stylesheet_inlined (join : JoinFn) (base : Url)
    (store : List (Url × Resource)) (parseHtml : String → Node)
    (serialize : Node → String) (content css : String) (docCs : NodeList)
    (hparse : parseHtml content = .other docCs)
    (hall : allLinksCssList join base store css docCs = true)
    (hlnk : countTagList "link" docCs = 1)
    (hsty : countTagList "style" docCs = 0) :
    (PageArchive.mk base content store).embed_resources join parseHtml
        serialize =
      .ok (serialize (embedTree join base store (.other docCs))) ∧
    countTag "link" (embedTree join base store (.other docCs)) = 0 ∧
    countTag "style" (embedTree join base store (.other docCs)) = 1 ∧
    stylesOf (embedTree join base store (.other docCs)) = [styleNode css] ∧
    (∀ (name : String) (attrs : List (String × String))
        (tc pre post : NodeList) (L : Node),
      nodeCssData join base store L = some css →
      cssStyles join base store
        (cssReplaceList join base store pre) = .nil →
      cssStyles join base store
        (cssReplaceList join base store post) = .nil →
      cssReplace join base store
          (.elem name attrs tc (NodeList.append pre (.cons L post))) =
        .elem name attrs tc
          (NodeList.append
            (NodeList.append (cssReplaceList join base store pre)
              (cssReplaceList join base store post))
            (.cons (styleNode css) .nil))) := by
  have hallX : allLinksCssList join base store css
      (imgReplaceList join base store docCs) = true := by
    rw [allLinksCssList_imgReplaceList]; exact hall
  have hstyX : countTagList "style" (imgReplaceList join base store docCs) =
      0 := by
    rw [countTagList_imgReplaceList]; exact hsty
  have hlnkX : countTagList "link" (imgReplaceList join base store docCs) =
      1 := by
    rw [countTagList_imgReplaceList]; exact hlnk
  obtain ⟨k1, k2⟩ := cssReplaceList_counts join base store css
    (imgReplaceList join base store docCs) hallX hstyX (by omega)
  rw [hlnkX] at k2
  have hT : embedTree join base store (.other docCs) =
      scriptReplace join base store
        (.other (cssRebuild join base store
          (cssReplaceList join base store
            (imgReplaceList join base store docCs)))) := rfl
  refine ⟨?_, ?_, ?_, ?_, ?_⟩
  · simp [PageArchive.embed_resources, hparse]
  · rw [hT, countTag_scriptReplace]
    simpa [countTag] using k1
  · rw [hT, countTag_scriptReplace, countTag_style_len]
    simp [stylesOf, k2]
  · rw [hT, stylesOf_scriptReplace]
    simp [stylesOf, k2, scriptReplace_styleNode]
  · intro name attrs tc pre post L hL hpre hpost
    exact cssReplace_parent_shape join base store css name attrs tc pre
      post L hL hpre hpost

/-- The stylesheet `link` of the C1 witness documents. -/
def wLink : Node :=
  .elem "link" [("rel", "stylesheet"), ("href", "b.css")] .nil .nil

/-- The C1 witness document: one stylesheet link, no styles. -/
def wDocC1 : NodeList :=
  .cons (.elem "html" [] .nil (.cons wLink .nil)) .nil

/-- The C1 witness store: the CSS text for the link's locator. -/
def wStoreC1 : List (Url × Resource) :=
  [("http://x/b.css", Resource.Css "body-css")]

/-- The C1 witness parser. -/
def wParseC1 : String → Node := fun _ => .other wDocC1

/-- The C1 witness serializer. -/
def wSerialize : Node → String := fun _ => "out"

/-- Witness for C1 at a concrete single-link document. -/
theorem claim_C1_witness :
    (wParseC1 "page" = .other wDocC1) ∧
    (allLinksCssList wJoin "http://x" wStoreC1 "body-css" wDocC1 = true) ∧
    (countTagList "link" wDocC1 = 1) ∧
    (countTagList "style" wDocC1 = 0) ∧
    stylesOf (embedTree wJoin "http://x" wStoreC1 (.other wDocC1)) =
      [styleNode "body-css"] :=
  ⟨rfl, by decide, by decide, by decide,
    (claim_C1_stylesheet_inlined wJoin "http://x" wStoreC1 wParseC1
      wSerialize "page" "body-css" wDocC1 rfl (by decide) (by decide)
      (by decide)).2.2.2.1⟩

/-- A pre-existing `<style>` element for the C1 counterexample. -/
def wStyleElem : Node := .elem "style" [] .nil (.cons (.text "q" .nil) .nil)

/-- The C1 counterexample document: exactly one `link` element (a
stylesheet link with a stored resource), plus a pre-existing `style`
element. -/
def wDocC1x : NodeList :=
  .cons (.elem "html" [] .nil (.cons wLink (.cons wStyleElem .nil))) .nil

/-- Counterexample for C1 as stated: a document satisfying the claim's
hypotheses — exactly one `link rel="stylesheet" href="X"` whose locator
has a `Stylesheet` entry in the store — whose rewritten output contains
two `style` elements, not exactly one, because the claim does not
exclude a pre-existing `style` element. -/
theorem claim_C1_counterexample :
    (countTagList "link" wDocC1x = 1) ∧
    (allLinksCssList wJoin "http://x" wStoreC1 "body-css" wDocC1x = true) ∧
    countTag "style"
      (embedTree wJoin "http://x" wStoreC1 (.other wDocC1x)) = 2 :=
  ⟨by decide, by decide, by decide⟩
